import Mathlib

/-!
Shallow embedding of the Pokemmo-raids checklist utilities:
the data-transformation pipeline of `transform_checklist.py`
(raw spreadsheet JSON → normalized checklist document) and the
completion operation `toggle_complete` of `mongo_helper.py`.

Python strings are modelled as Lean `String` (a structure holding a
`List Char`).  `pyIn` models Python's substring operator `in`,
`pyStrip` models `str.strip()`, `pyUpper`/`pyLower` model
`str.upper()`/`str.lower()` (ASCII range, as in the data handled by the
script), and `pyCapitalize` models `str.capitalize()`.  A raw JSON row
is an association list from (spreadsheet-derived) string keys to string
values; `rget`/`rgetD` model `dict.get`.
-/

/-- Python `needle in haystack` on strings: substring containment. -/
def pyIn (needle haystack : String) : Bool :=
  decide (needle.data <:+: haystack.data)

/-- `str.strip()` on the underlying character list: drop whitespace
from both ends. -/
def pyStripL (l : List Char) : List Char :=
  List.rdropWhile Char.isWhitespace (List.dropWhile Char.isWhitespace l)

/-- Python `str.strip()`. -/
def pyStrip (s : String) : String := ⟨pyStripL s.data⟩

/-- Python `str.upper()`. -/
def pyUpper (s : String) : String := ⟨s.data.map Char.toUpper⟩

/-- Python `str.lower()`. -/
def pyLower (s : String) : String := ⟨s.data.map Char.toLower⟩

/-- Python `str.capitalize()`: first character uppercased, the rest
lowercased. -/
def pyCapitalize (s : String) : String :=
  match s.data with
  | [] => ⟨[]⟩
  | c :: cs => ⟨c.toUpper :: cs.map Char.toLower⟩

/-- A raw spreadsheet-derived row: inconsistent string keys to string
values. -/
abbrev RawRow := List (String × String)

/-- Python `row.get(k)`: first binding of key `k`, if any. -/
def rget (row : RawRow) (k : String) : Option String :=
  (row.find? (fun p => p.1 == k)).map (fun p => p.2)

/-- Python `row.get(k, d)`: defaulting lookup. -/
def rgetD (row : RawRow) (k d : String) : String := (rget row k).getD d

/-- `normalize_usage` (transform_checklist.py lines 12-29): normalize a
free-text usage string to `Physical`, `Special` or `Support`, `none`
when no (or conflicting) signal is present. -/
def normalize_usage (usage_str : String) : Option String :=
  if usage_str = "" ∨ usage_str = "Level 80" then none
  else
    let u := pyStrip (pyUpper usage_str)
    if pyIn "PHYS" u && pyIn "SPECIAL" u then none
    else if pyIn "PHYS" u then some "Physical"
    else if pyIn "SPECIAL" u then some "Special"
    else if pyIn "UTILITY" u || pyIn "SUPPORT" u then some "Support"
    else none

/-- The fixed canonical list of 17 type names scanned by
`extract_types` (transform_checklist.py lines 44-46). -/
def type_names : List String :=
  ["Fighting", "Rock", "Ghost", "Bug", "Flying", "Psychic",
   "Steel", "Ground", "Poison", "Water", "Grass", "Electric",
   "Ice", "Dragon", "Dark", "Fairy", "Normal"]

/-- `extract_types` (transform_checklist.py lines 31-53): scan the
secondary-usage free text for canonical type names, appending each
match once, in the canonical list's iteration order.  The first
argument (the `Fire` field) is accepted and ignored, as in the source. -/
def extract_types (type_field secondary_usage : String) : List String :=
  if secondary_usage ≠ "" ∧ pyStrip secondary_usage ≠ "" then
    let secondary := pyStrip secondary_usage
    type_names.foldl
      (fun types type_name =>
        if pyIn (pyLower type_name) (pyLower secondary) && !(types.contains type_name)
        then types ++ [type_name] else types) []
  else []

/-- `collect_moves` (transform_checklist.py lines 55-63): gather the
trimmed non-empty move fields `Moves`, `__2`, `__3`, `__4` in that
order and join them with `", "`. -/
def collect_moves (entry : RawRow) : String :=
  let moves := ["Moves", "__2", "__3", "__4"].foldl
    (fun moves key =>
      match rget entry key with
      | some v => if v ≠ "" ∧ pyStrip v ≠ "" then moves ++ [pyStrip v] else moves
      | none => moves) []
  String.intercalate ", " moves

/-- The fixed marker substrings rejected by `is_valid_pokemon_name`
(transform_checklist.py lines 73-76). -/
def invalid_patterns : List String :=
  ["bug/ice", "level 80", "needed", "pick",
   "choices", "special", "phys", "utility"]

/-- `is_valid_pokemon_name` (transform_checklist.py lines 65-86). -/
def is_valid_pokemon_name (name : String) : Bool :=
  if name = "" ∨ pyStrip name = "" then false
  else
    let name := pyStrip name
    if invalid_patterns.any (fun pat => pyIn pat (pyLower name)) then false
    else
      match name.data with
      | [] => false
      | c :: _ => c.isUpper

/-- A converted checklist entry (the dict built at
transform_checklist.py lines 161-173); `ability`, `moves` and `notes`
are optional keys, absent when their computed text is empty. -/
structure PokemonEntry where
  name : String
  usage : String
  types : List String
  completed : Bool
  ability : Option String
  moves : Option String
  notes : Option String
deriving DecidableEq, Repr

/-- The note computation of transform_checklist.py lines 146-158:
the trimmed secondary-usage text when it names no canonical type,
with the trimmed choices text appended (space-joined, re-trimmed)
unless the uppercased choices text is excluded. -/
def compute_notes (secondary_usage_field choices_field : String) : String :=
  let secondary_usage := pyStrip secondary_usage_field
  let notes :=
    if secondary_usage ≠ "" ∧
        ¬ (type_names.any (fun t => pyIn (pyLower t) (pyLower secondary_usage))) = true
    then secondary_usage else ""
  let choices := pyStrip choices_field
  if choices ≠ "" ∧ ¬ (["", "NEEDED", "PICK 5"].contains (pyUpper choices)) = true
  then pyStrip (notes ++ " " ++ choices)
  else notes

/-- Outcome of the per-row body of the loop at transform_checklist.py
lines 111-176: exactly one of the three skip reasons, or a converted
entry. -/
inductive RowResult where
  | skippedInvalidName (pokemon_name : String)
  | skippedAmbiguousUsage (usage_field pokemon_name : String)
  | skippedNoUsage (pokemon_name usage_field : String)
  | converted (e : PokemonEntry)
deriving DecidableEq, Repr

/-- The per-row body of the loop at transform_checklist.py
lines 105-176, for a row `entry` appearing under category `type_key`. -/
def process_entry (type_key : String) (entry : RawRow) : RowResult :=
  let type_name := pyCapitalize type_key
  let type_name := if type_name = "Utility" then "Support" else type_name
  let pokemon_name := pyStrip (rgetD entry "Fire" "")
  if !(is_valid_pokemon_name pokemon_name) then
    .skippedInvalidName pokemon_name
  else
    let usage_field := rgetD entry "Level 80" ""
    match normalize_usage usage_field with
    | none =>
        if usage_field ≠ "" ∧
            (pyIn "PHYS" (pyUpper usage_field) && pyIn "SPECIAL" (pyUpper usage_field)) = true then
          .skippedAmbiguousUsage usage_field pokemon_name
        else
          .skippedNoUsage pokemon_name usage_field
    | some usage =>
        let types := [type_name]
        let secondary_types :=
          extract_types (rgetD entry "Fire" "") (rgetD entry "Secondary Usage" "")
        let types := types ++ secondary_types.filter (fun t => !(types.contains t))
        let moves := collect_moves entry
        let ability := pyStrip (rgetD entry "Ability" "")
        let notes := compute_notes (rgetD entry "Secondary Usage" "") (rgetD entry "Choices" "")
        .converted {
          name := pokemon_name
          usage := usage
          types := types
          completed := false
          ability := if ability ≠ "" then some ability else none
          moves := if moves ≠ "" then some moves else none
          notes := if notes ≠ "" then some notes else none }

/-- The `stats` counter dict (transform_checklist.py lines 96-102). -/
structure Stats where
  total_entries : Nat
  skipped_invalid_name : Nat
  skipped_no_usage : Nat
  skipped_ambiguous_usage : Nat
  converted : Nat
deriving DecidableEq, Repr

/-- Kind of a recorded issue (the three skip messages appended to
`issues` at transform_checklist.py lines 119, 129, 132). -/
inductive IssueKind where
  | invalidName
  | ambiguousUsage
  | noUsage
deriving DecidableEq, Repr

/-- A recorded issue: its kind, the row's (stripped) name, and the
extra context interpolated into the message (the category key for
invalid names, the usage field otherwise). -/
structure Issue where
  kind : IssueKind
  pokemon_name : String
  context : String
deriving DecidableEq, Repr

/-- The accumulating state of the transformation loop:
`pokemon_list`, `issues` and `stats` of transform_checklist.py
lines 94-102. -/
structure TState where
  pokemon_list : List PokemonEntry
  issues : List Issue
  stats : Stats
deriving DecidableEq, Repr

/-- The state before any row is processed. -/
def init_state : TState :=
  { pokemon_list := []
    issues := []
    stats := { total_entries := 0, skipped_invalid_name := 0, skipped_no_usage := 0,
               skipped_ambiguous_usage := 0, converted := 0 } }

/-- One iteration of the row loop: bump `total_entries`, then route the
row's outcome to exactly one counter (and issue list or entry list). -/
def step (type_key : String) (st : TState) (entry : RawRow) : TState :=
  let st := { st with stats := { st.stats with total_entries := st.stats.total_entries + 1 } }
  match process_entry type_key entry with
  | .skippedInvalidName nm =>
      { st with
        stats := { st.stats with skipped_invalid_name := st.stats.skipped_invalid_name + 1 }
        issues := st.issues ++ [⟨.invalidName, nm, type_key⟩] }
  | .skippedAmbiguousUsage uf nm =>
      { st with
        stats := { st.stats with skipped_ambiguous_usage := st.stats.skipped_ambiguous_usage + 1 }
        issues := st.issues ++ [⟨.ambiguousUsage, nm, uf⟩] }
  | .skippedNoUsage nm uf =>
      { st with
        stats := { st.stats with skipped_no_usage := st.stats.skipped_no_usage + 1 }
        issues := st.issues ++ [⟨.noUsage, nm, uf⟩] }
  | .converted e =>
      { st with
        stats := { st.stats with converted := st.stats.converted + 1 }
        pokemon_list := st.pokemon_list ++ [e] }

/-- The inner loop over the rows of one category. -/
def process_rows (type_key : String) (st : TState) (entries : List RawRow) : TState :=
  entries.foldl (step type_key) st

/-- The parsed source JSON: an ordered mapping from type-category keys
to row sequences. -/
abbrev SourceData := List (String × List RawRow)

/-- The full double loop of `transform_checklist`
(transform_checklist.py lines 104-176). -/
def transform_core (old_data : SourceData) : TState :=
  old_data.foldl (fun st kv => process_rows kv.1 st kv.2) init_state

/-- The output document (`mongo_doc`, transform_checklist.py
lines 179-184).  `updated_at` is the timestamp string taken at run
time, passed here as a parameter. -/
structure MongoDoc where
  season : String
  user_id : String
  pokemon : List PokemonEntry
  updated_at : String
deriving DecidableEq, Repr

/-- `transform_checklist` (transform_checklist.py lines 88-188),
from already-parsed source data to the output document. -/
def transform_checklist (old_data : SourceData) (now : String) : MongoDoc :=
  { season := "christmas_2024"
    user_id := "default"
    pokemon := (transform_core old_data).pokemon_list
    updated_at := now }

/-- The whole run including the structural read/parse step
(transform_checklist.py lines 91-92): a source that cannot be read or
parsed (`none`) halts the run before any document is produced. -/
def run_pipeline (input : Option SourceData) (now : String) : Option MongoDoc :=
  match input with
  | none => none
  | some old_data => some (transform_checklist old_data now)

/-- The `$set` of `toggle_complete` (mongo_helper.py lines 128-134) as
it acts on one array element: elements matching the name/usage array
filter get `completed := true`, others are unchanged. -/
def set_completed (pokemon_name usage : String) (p : PokemonEntry) : PokemonEntry :=
  if p.name = pokemon_name ∧ p.usage = usage then { p with completed := true } else p

/-- The `update_one` query of `toggle_complete` (mongo_helper.py
lines 118-127): season and default user match, with an `$elemMatch` on
the pokemon array. -/
def doc_matches (season pokemon_name usage : String) (d : MongoDoc) : Bool :=
  d.season == season && d.user_id == "default" &&
    d.pokemon.any (fun p => p.name == pokemon_name && p.usage == usage)

/-- `toggle_complete` (mongo_helper.py lines 113-148) acting on the
checklists collection: `update_one` rewrites the first matching
document, setting `completed := true` on every array element matching
the array filter and refreshing `updated_at`; with no match the
collection is unchanged. -/
def toggle_complete (pokemon_name usage season now : String) :
    List MongoDoc → List MongoDoc
  | [] => []
  | d :: ds =>
    if doc_matches season pokemon_name usage d then
      { d with
        pokemon := d.pokemon.map (set_completed pokemon_name usage)
        updated_at := now } :: ds
    else
      d :: toggle_complete pokemon_name usage season now ds

/-- A document without its `updated_at` field. -/
def doc_content (d : MongoDoc) : String × String × List PokemonEntry :=
  (d.season, d.user_id, d.pokemon)

/-!
### String-model lemmas

Substring containment is unaffected by stripping the haystack when the
needle neither starts nor ends with whitespace, and likewise under a
character map (such as `Char.toLower`) that fixes whitespace.
-/

/-- The needle neither starts nor ends with whitespace. -/
def no_ws_edges (n : String) : Bool :=
  (match n.data.head? with | some c => !c.isWhitespace | none => true) &&
  (match n.data.getLast? with | some c => !c.isWhitespace | none => true)

theorem no_ws_edges_head {n : String} (h : no_ws_edges n = true) :
    ∀ c, n.data.head? = some c → c.isWhitespace = false := by
  intro c hc
  unfold no_ws_edges at h
  rw [Bool.and_eq_true] at h
  have h1 := h.1
  rw [hc] at h1
  simpa using h1

theorem no_ws_edges_getLast {n : String} (h : no_ws_edges n = true) :
    ∀ c, n.data.getLast? = some c → c.isWhitespace = false := by
  intro c hc
  unfold no_ws_edges at h
  rw [Bool.and_eq_true] at h
  have h2 := h.2
  rw [hc] at h2
  simpa using h2

theorem infix_map_dropWhile_iff (p : Char → Bool) (f : Char → Char)
    (hpf : ∀ a, p a = true → f a = a) (n : List Char)
    (hh : ∀ c, n.head? = some c → p c = false) (l : List Char) :
    n <:+: (l.dropWhile p).map f ↔ n <:+: l.map f := by
  induction l with
  | nil => simp
  | cons a t ih =>
    rw [List.dropWhile_cons]
    by_cases hpa : p a = true
    · rw [if_pos hpa, ih, List.map_cons]
      constructor
      · exact List.infix_cons
      · intro h
        rcases List.infix_cons_iff.mp h with hpre | hinf
        · cases n with
          | nil => exact List.nil_infix
          | cons b m =>
            exfalso
            have hb : b = f a := (List.cons_prefix_cons.mp hpre).1
            have hba : b = a := by rw [hb, hpf a hpa]
            have hfalse := hh b rfl
            rw [hba] at hfalse
            rw [hfalse] at hpa
            exact Bool.false_ne_true hpa
        · exact hinf
    · rw [if_neg hpa]

theorem infix_reverse_iff (n l : List Char) : n <:+: l.reverse ↔ n.reverse <:+: l := by
  conv_lhs => rw [← List.reverse_reverse n]
  exact List.reverse_infix

theorem infix_map_rdropWhile_iff (p : Char → Bool) (f : Char → Char)
    (hpf : ∀ a, p a = true → f a = a) (n : List Char)
    (hl : ∀ c, n.getLast? = some c → p c = false) (l : List Char) :
    n <:+: (l.rdropWhile p).map f ↔ n <:+: l.map f := by
  have hh : ∀ c, n.reverse.head? = some c → p c = false := by
    intro c hc
    exact hl c (by rwa [List.head?_reverse] at hc)
  rw [List.rdropWhile, List.map_reverse, infix_reverse_iff,
    infix_map_dropWhile_iff p f hpf n.reverse hh, List.map_reverse]
  exact List.reverse_infix

theorem pyIn_strip_map (f : Char → Char) (hpf : ∀ a, a.isWhitespace = true → f a = a)
    (n : String) (l : List Char) (h : no_ws_edges n = true) :
    decide (n.data <:+: (pyStripL l).map f) = decide (n.data <:+: l.map f) := by
  rw [decide_eq_decide]
  unfold pyStripL
  rw [infix_map_rdropWhile_iff _ f hpf _ (no_ws_edges_getLast h),
    infix_map_dropWhile_iff _ f hpf _ (no_ws_edges_head h)]

theorem pyIn_pyStrip (n s : String) (h : no_ws_edges n = true) :
    pyIn n (pyStrip s) = pyIn n s := by
  have h2 := pyIn_strip_map id (fun a _ => rfl) n s.data h
  rw [List.map_id, List.map_id] at h2
  exact h2

theorem toLower_isWhitespace_fix (a : Char) (h : a.isWhitespace = true) : a.toLower = a := by
  have h4 : ((a = ' ' ∨ a = '\t') ∨ a = '\r') ∨ a = '\n' := by
    simpa [Char.isWhitespace] using h
  rcases h4 with ((h | h) | h) | h <;> rw [h] <;> decide

theorem pyIn_pyLower_pyStrip (n s : String) (h : no_ws_edges n = true) :
    pyIn n (pyLower (pyStrip s)) = pyIn n (pyLower s) :=
  pyIn_strip_map Char.toLower toLower_isWhitespace_fix n s.data h

theorem pyStripL_getLast_not_ws (l : List Char) (h : pyStripL l ≠ []) :
    ((pyStripL l).getLast h).isWhitespace = false := by
  have h2 := List.rdropWhile_last_not Char.isWhitespace (l.dropWhile Char.isWhitespace) h
  simpa using h2

theorem pyStripL_head_not_ws (l : List Char) (hl : 0 < (pyStripL l).length) :
    ((pyStripL l).get ⟨0, hl⟩).isWhitespace = false := by
  have hpre := List.rdropWhile_prefix Char.isWhitespace (l.dropWhile Char.isWhitespace)
  have hlen : 0 < (l.dropWhile Char.isWhitespace).length := lt_of_lt_of_le hl hpre.length_le
  have hget := List.dropWhile_get_zero_not Char.isWhitespace l hlen
  have heq : (pyStripL l).get ⟨0, hl⟩ = (l.dropWhile Char.isWhitespace).get ⟨0, hlen⟩ := by
    have h3 := hpre.getElem (show 0 < (pyStripL l).length from hl)
    simpa [List.get_eq_getElem] using h3
  rw [heq]
  simpa using hget

theorem dropWhile_pyStripL (l : List Char) :
    (pyStripL l).dropWhile Char.isWhitespace = pyStripL l := by
  rw [List.dropWhile_eq_self_iff]
  intro hl
  simpa using pyStripL_head_not_ws l hl

theorem rdropWhile_pyStripL (l : List Char) :
    (pyStripL l).rdropWhile Char.isWhitespace = pyStripL l := by
  rw [List.rdropWhile_eq_self_iff]
  intro hl
  simpa using pyStripL_getLast_not_ws l hl

theorem pyStripL_idem (l : List Char) : pyStripL (pyStripL l) = pyStripL l := by
  show ((pyStripL l).dropWhile Char.isWhitespace).rdropWhile Char.isWhitespace = pyStripL l
  rw [dropWhile_pyStripL, rdropWhile_pyStripL]

theorem pyStrip_idem (s : String) : pyStrip (pyStrip s) = pyStrip s := by
  show (⟨pyStripL (pyStripL s.data)⟩ : String) = ⟨pyStripL s.data⟩
  rw [pyStripL_idem]

theorem pyStripL_append_space (l : List Char) :
    pyStripL (pyStripL l ++ [' ']) = pyStripL l := by
  by_cases h : pyStripL l = []
  · rw [h]
    decide
  · show ((pyStripL l ++ [' ']).dropWhile Char.isWhitespace).rdropWhile Char.isWhitespace
        = pyStripL l
    have hd : (pyStripL l ++ [' ']).dropWhile Char.isWhitespace = pyStripL l ++ [' '] := by
      rw [List.dropWhile_append, dropWhile_pyStripL]
      rw [if_neg (by simpa [List.isEmpty_iff] using h)]
    rw [hd, List.rdropWhile_concat_pos _ _ _ (by decide), rdropWhile_pyStripL]

/-- `pyStrip` undoes a single trailing space appended to an
already-stripped string. -/
theorem pyStrip_append_space (s : String) :
    pyStrip (pyStrip s ++ " ") = pyStrip s := by
  show (⟨pyStripL ((pyStrip s).data ++ " ".data)⟩ : String) = pyStrip s
  show (⟨pyStripL (pyStripL s.data ++ [' '])⟩ : String) = pyStrip s
  rw [pyStripL_append_space]
  rfl

/-!
### Claim theorems
-/

/-- The concrete row of the C5 scenario, as it appears under the
`fire` category of the source JSON. -/
def c5_row : RawRow :=
  [("Fire", "Charizard"), ("Level 80", "Special Attacker"),
   ("Secondary Usage", "Dragon Claw coverage"),
   ("Moves", "Flare Blitz"), ("__2", "Dragon Claw"), ("__3", ""), ("__4", ""),
   ("Ability", "Blaze"), ("Choices", "Pick 5")]

/-- C5: on the source whose category `fire` holds the Charizard row
(usage `Special Attacker`, secondary usage `Dragon Claw coverage`,
moves `Flare Blitz`/`Dragon Claw`, ability `Blaze`, choices `Pick 5`),
the pipeline produces exactly the entry
`{name := Charizard, usage := Special, types := [Fire, Dragon],
moves := Flare Blitz, Dragon Claw, ability := Blaze}` with the notes
field omitted. -/
theorem c5_charizard_scenario (now : String) :
    transform_checklist [("fire", [c5_row])] now =
      { season := "christmas_2024"
        user_id := "default"
        pokemon := [{ name := "Charizard", usage := "Special"
                      types := ["Fire", "Dragon"], completed := false
                      ability := some "Blaze"
                      moves := some "Flare Blitz, Dragon Claw", notes := none }]
        updated_at := now } := by
  rfl

/-- C7: the transformation is deterministic apart from the timestamp:
two runs on identical source data agree on season, owner and the whole
entry list, and differ at most in `updated_at`. -/
theorem c7_deterministic_modulo_timestamp (old_data : SourceData) (t1 t2 : String) :
    (transform_checklist old_data t1).season = (transform_checklist old_data t2).season ∧
    (transform_checklist old_data t1).user_id = (transform_checklist old_data t2).user_id ∧
    (transform_checklist old_data t1).pokemon = (transform_checklist old_data t2).pokemon ∧
    transform_checklist old_data t1 = { transform_checklist old_data t2 with updated_at := t1 } :=
  ⟨rfl, rfl, rfl, rfl⟩

theorem step_total (k : String) (st : TState) (row : RawRow) :
    (step k st row).stats.total_entries = st.stats.total_entries + 1 := by
  cases hp : process_entry k row <;> simp [step, hp]

theorem process_rows_total (k : String) (rows : List RawRow) (st : TState) :
    (process_rows k st rows).stats.total_entries = st.stats.total_entries + rows.length := by
  induction rows generalizing st with
  | nil => rfl
  | cons r rs ih =>
    show (process_rows k (step k st r) rs).stats.total_entries = _
    rw [ih, step_total]
    simp only [List.length_cons]
    omega

theorem transform_fold_total (data : SourceData) (st : TState) :
    (data.foldl (fun st kv => process_rows kv.1 st kv.2) st).stats.total_entries
      = st.stats.total_entries + (data.map (fun kv => kv.2.length)).sum := by
  induction data generalizing st with
  | nil => simp
  | cons kv rest ih =>
    show (rest.foldl _ (process_rows kv.1 st kv.2)).stats.total_entries = _
    rw [ih, process_rows_total]
    simp only [List.map_cons, List.sum_cons]
    omega

theorem transform_core_total (old_data : SourceData) :
    (transform_core old_data).stats.total_entries
      = (old_data.map (fun kv => kv.2.length)).sum := by
  rw [transform_core, transform_fold_total]
  simp [init_state]

/-- C8: per-row errors never abort a run — every row of every category
reaches the loop body, so the final `total_entries` counter equals the
total number of rows — while a structural read/parse failure stops the
pipeline before any output document is produced, and only a successful
parse yields a document. -/
theorem c8_error_containment :
    (∀ now, run_pipeline none now = none) ∧
    (∀ (old_data : SourceData) (now : String),
      run_pipeline (some old_data) now = some (transform_checklist old_data now)) ∧
    (∀ old_data : SourceData,
      (transform_core old_data).stats.total_entries
        = (old_data.map (fun kv => kv.2.length)).sum) :=
  ⟨fun _ => rfl, fun _ _ => rfl, transform_core_total⟩

/-- C9: every raw-row field is read with a defaulting lookup; a row
with no `Fire` key yields the empty name and is skipped as an invalid
name. -/
theorem c9_missing_name_key (k : String) (row : RawRow) (h : rget row "Fire" = none) :
    rgetD row "Fire" "" = "" ∧ process_entry k row = RowResult.skippedInvalidName "" := by
  have h1 : rgetD row "Fire" "" = "" := by rw [rgetD, h]; rfl
  refine ⟨h1, ?_⟩
  unfold process_entry
  rw [h1]
  rfl

/-- Witness for C9 at a concrete row lacking the `Fire` key. -/
theorem c9_missing_name_key_witness :
    rgetD [(("Level 80" : String), ("Physical" : String))] "Fire" "" = "" ∧
    process_entry "fire" [("Level 80", "Physical")] = RowResult.skippedInvalidName "" :=
  c9_missing_name_key "fire" [("Level 80", "Physical")] rfl

/-- The counter equation of C6: every processed row is accounted for by
exactly one outcome counter. -/
def stats_consistent (s : Stats) : Prop :=
  s.total_entries
    = s.converted + s.skipped_invalid_name + s.skipped_no_usage + s.skipped_ambiguous_usage

theorem step_consistent (k : String) (st : TState) (row : RawRow)
    (h : stats_consistent st.stats) : stats_consistent (step k st row).stats := by
  unfold stats_consistent at *
  cases hp : process_entry k row <;> simp [step, hp] <;> omega

theorem process_rows_consistent (k : String) (rows : List RawRow) (st : TState)
    (h : stats_consistent st.stats) : stats_consistent (process_rows k st rows).stats := by
  induction rows generalizing st with
  | nil => exact h
  | cons r rs ih =>
    show stats_consistent (process_rows k (step k st r) rs).stats
    exact ih _ (step_consistent k st r h)

theorem transform_fold_consistent (data : SourceData) (st : TState)
    (h : stats_consistent st.stats) :
    stats_consistent (data.foldl (fun st kv => process_rows kv.1 st kv.2) st).stats := by
  induction data generalizing st with
  | nil => exact h
  | cons kv rest ih =>
    show stats_consistent (rest.foldl _ (process_rows kv.1 st kv.2)).stats
    exact ih _ (process_rows_consistent kv.1 kv.2 st h)

/-- C6: after every processed row the counter equation
`total_entries = converted + skipped_invalid_name + skipped_no_usage +
skipped_ambiguous_usage` is preserved (each row bumps `total_entries`
and exactly one other counter), and therefore it holds for the final
statistics of every run. -/
theorem c6_counter_equation :
    (∀ (k : String) (st : TState) (row : RawRow),
      stats_consistent st.stats → stats_consistent (step k st row).stats) ∧
    (∀ old_data : SourceData, stats_consistent (transform_core old_data).stats) :=
  ⟨step_consistent, fun old_data => transform_fold_consistent old_data init_state rfl⟩

/-- Witness for C6's invariant-preservation conjunct at a concrete
state and row. -/
theorem c6_counter_equation_witness :
    stats_consistent (step "fire" init_state c5_row).stats :=
  c6_counter_equation.1 "fire" init_state c5_row rfl

theorem set_completed_name (n u : String) (p : PokemonEntry) :
    (set_completed n u p).name = p.name := by
  unfold set_completed
  by_cases h : p.name = n ∧ p.usage = u
  · rw [if_pos h]
  · rw [if_neg h]

theorem set_completed_usage (n u : String) (p : PokemonEntry) :
    (set_completed n u p).usage = p.usage := by
  unfold set_completed
  by_cases h : p.name = n ∧ p.usage = u
  · rw [if_pos h]
  · rw [if_neg h]

theorem set_completed_idem (n u : String) (p : PokemonEntry) :
    set_completed n u (set_completed n u p) = set_completed n u p := by
  unfold set_completed
  by_cases h : p.name = n ∧ p.usage = u
  · rw [if_pos h, if_pos h]
  · rw [if_neg h, if_neg h]

theorem doc_matches_mapped (n u s t : String) (d : MongoDoc) :
    doc_matches s n u
        { d with pokemon := d.pokemon.map (set_completed n u), updated_at := t }
      = doc_matches s n u d := by
  unfold doc_matches
  simp only [List.any_map]
  have hf : ((fun p : PokemonEntry => p.name == n && p.usage == u) ∘ set_completed n u)
      = (fun p : PokemonEntry => p.name == n && p.usage == u) := by
    funext p
    simp only [Function.comp_apply, set_completed_name, set_completed_usage]
  rw [hf]

theorem toggle_complete_shape (n u s t : String) (coll : List MongoDoc) :
    List.Forall₂
      (fun d d' => d'.season = d.season ∧ d'.user_id = d.user_id ∧
        List.Forall₂ (fun p p' => p' = p ∨ p' = { p with completed := true })
          d.pokemon d'.pokemon)
      coll (toggle_complete n u s t coll) := by
  induction coll with
  | nil => exact List.Forall₂.nil
  | cons d ds ih =>
    simp only [toggle_complete]
    by_cases h : doc_matches s n u d = true
    · rw [if_pos h]
      refine List.forall₂_cons.mpr ⟨⟨rfl, rfl, ?_⟩, ?_⟩
      · show List.Forall₂ _ d.pokemon (d.pokemon.map (set_completed n u))
        rw [List.forall₂_map_right_iff]
        apply List.forall₂_same.mpr
        intro p _
        unfold set_completed
        by_cases hp : p.name = n ∧ p.usage = u
        · rw [if_pos hp]
          exact Or.inr rfl
        · rw [if_neg hp]
          exact Or.inl rfl
      · apply List.forall₂_same.mpr
        intro x _
        exact ⟨rfl, rfl, List.forall₂_same.mpr (fun p _ => Or.inl rfl)⟩
    · rw [if_neg h]
      exact List.forall₂_cons.mpr
        ⟨⟨rfl, rfl, List.forall₂_same.mpr (fun p _ => Or.inl rfl)⟩, ih⟩

theorem toggle_complete_idem (n u s t t' : String) (coll : List MongoDoc) :
    (toggle_complete n u s t' (toggle_complete n u s t coll)).map doc_content
      = (toggle_complete n u s t coll).map doc_content := by
  induction coll with
  | nil => rfl
  | cons d ds ih =>
    simp only [toggle_complete]
    by_cases h : doc_matches s n u d = true
    · rw [if_pos h]
      simp only [toggle_complete]
      rw [if_pos (show doc_matches s n u _ = true by rw [doc_matches_mapped]; exact h)]
      have hmap : (d.pokemon.map (set_completed n u)).map (set_completed n u)
          = d.pokemon.map (set_completed n u) := by
        rw [List.map_map]
        exact List.map_congr_left (fun p _ => by
          simp only [Function.comp_apply, set_completed_idem])
      simp only [List.map_cons, doc_content, hmap]
    · rw [if_neg h]
      simp only [toggle_complete]
      rw [if_neg h]
      simp only [List.map_cons]
      rw [ih]

/-- C10: the CLI `complete` operation always sets the matched entries'
`completed` flag to `true` and never clears it: each entry of the
updated collection is either unchanged or its original with
`completed := true`, and a name/usage-matched entry's flag becomes
`true`.  Consequently the operation is idempotent on the checklist
contents modulo `updated_at`: applying it twice yields the same
document contents as applying it once. -/
theorem c10_complete_sets_true_and_idempotent (n u s t t' : String) (coll : List MongoDoc) :
    (∀ p : PokemonEntry,
      (set_completed n u p).completed
        = (if p.name = n ∧ p.usage = u then true else p.completed)) ∧
    List.Forall₂
      (fun d d' => d'.season = d.season ∧ d'.user_id = d.user_id ∧
        List.Forall₂ (fun p p' => p' = p ∨ p' = { p with completed := true })
          d.pokemon d'.pokemon)
      coll (toggle_complete n u s t coll) ∧
    (toggle_complete n u s t' (toggle_complete n u s t coll)).map doc_content
      = (toggle_complete n u s t coll).map doc_content := by
  refine ⟨?_, toggle_complete_shape n u s t coll, toggle_complete_idem n u s t t' coll⟩
  intro p
  unfold set_completed
  by_cases hp : p.name = n ∧ p.usage = u
  · rw [if_pos hp, if_pos hp]
  · rw [if_neg hp, if_neg hp]


/-- `normalize_usage` restated with its marker tests applied to the
un-stripped uppercased field (stripping cannot change whether the
whitespace-free markers occur). -/
theorem normalize_usage_eq (u : String) :
    normalize_usage u =
      if u = "" ∨ u = "Level 80" then none
      else if pyIn "PHYS" (pyUpper u) && pyIn "SPECIAL" (pyUpper u) then none
      else if pyIn "PHYS" (pyUpper u) then some "Physical"
      else if pyIn "SPECIAL" (pyUpper u) then some "Special"
      else if pyIn "UTILITY" (pyUpper u) || pyIn "SUPPORT" (pyUpper u) then some "Support"
      else none := by
  simp only [normalize_usage]
  rw [pyIn_pyStrip "PHYS" (pyUpper u) (by decide),
    pyIn_pyStrip "SPECIAL" (pyUpper u) (by decide),
    pyIn_pyStrip "UTILITY" (pyUpper u) (by decide),
    pyIn_pyStrip "SUPPORT" (pyUpper u) (by decide)]


/-- For a row passing name validation, `process_entry` is the usage
dispatch of transform_checklist.py lines 122-176. -/
theorem process_entry_valid (k : String) (row : RawRow)
    (hv : is_valid_pokemon_name (pyStrip (rgetD row "Fire" "")) = true) :
    process_entry k row =
      (match normalize_usage (rgetD row "Level 80" "") with
       | none =>
           if rgetD row "Level 80" "" ≠ "" ∧
               (pyIn "PHYS" (pyUpper (rgetD row "Level 80" "")) &&
                 pyIn "SPECIAL" (pyUpper (rgetD row "Level 80" ""))) = true then
             RowResult.skippedAmbiguousUsage (rgetD row "Level 80" "")
               (pyStrip (rgetD row "Fire" ""))
           else
             RowResult.skippedNoUsage (pyStrip (rgetD row "Fire" ""))
               (rgetD row "Level 80" "")
       | some usage =>
           RowResult.converted {
             name := pyStrip (rgetD row "Fire" "")
             usage := usage
             types :=
               (if pyCapitalize k = "Utility" then "Support" else pyCapitalize k) ::
                 (extract_types (rgetD row "Fire" "") (rgetD row "Secondary Usage" "")).filter
                   (fun t =>
                     !([if pyCapitalize k = "Utility" then "Support"
                        else pyCapitalize k].contains t))
             completed := false
             ability :=
               if pyStrip (rgetD row "Ability" "") ≠ "" then
                 some (pyStrip (rgetD row "Ability" "")) else none
             moves := if collect_moves row ≠ "" then some (collect_moves row) else none
             notes :=
               if compute_notes (rgetD row "Secondary Usage" "") (rgetD row "Choices" "") ≠ ""
               then some (compute_notes (rgetD row "Secondary Usage" "") (rgetD row "Choices" ""))
               else none }) := by
  simp only [process_entry, hv]
  rfl


/-- C1: role normalization follows the fixed priority order on the
usage field (case-insensitive substring markers): both a physical and
a special marker → the row is skipped as `AmbiguousUsage`, never
classified; else a physical marker → role `Physical`; else a special
marker → role `Special`; else a utility or support marker → role
`Support`; else the row is skipped as `NoUsage`. -/
theorem c1_role_priority (k : String) (row : RawRow)
    (hv : is_valid_pokemon_name (pyStrip (rgetD row "Fire" "")) = true) :
    (pyIn "PHYS" (pyUpper (rgetD row "Level 80" "")) = true →
      pyIn "SPECIAL" (pyUpper (rgetD row "Level 80" "")) = true →
      process_entry k row = RowResult.skippedAmbiguousUsage (rgetD row "Level 80" "")
        (pyStrip (rgetD row "Fire" ""))) ∧
    (pyIn "PHYS" (pyUpper (rgetD row "Level 80" "")) = true →
      pyIn "SPECIAL" (pyUpper (rgetD row "Level 80" "")) = false →
      ∃ e, process_entry k row = RowResult.converted e ∧ e.usage = "Physical") ∧
    (pyIn "PHYS" (pyUpper (rgetD row "Level 80" "")) = false →
      pyIn "SPECIAL" (pyUpper (rgetD row "Level 80" "")) = true →
      ∃ e, process_entry k row = RowResult.converted e ∧ e.usage = "Special") ∧
    (pyIn "PHYS" (pyUpper (rgetD row "Level 80" "")) = false →
      pyIn "SPECIAL" (pyUpper (rgetD row "Level 80" "")) = false →
      (pyIn "UTILITY" (pyUpper (rgetD row "Level 80" "")) ||
        pyIn "SUPPORT" (pyUpper (rgetD row "Level 80" ""))) = true →
      ∃ e, process_entry k row = RowResult.converted e ∧ e.usage = "Support") ∧
    (pyIn "PHYS" (pyUpper (rgetD row "Level 80" "")) = false →
      pyIn "SPECIAL" (pyUpper (rgetD row "Level 80" "")) = false →
      (pyIn "UTILITY" (pyUpper (rgetD row "Level 80" "")) ||
        pyIn "SUPPORT" (pyUpper (rgetD row "Level 80" ""))) = false →
      process_entry k row = RowResult.skippedNoUsage (pyStrip (rgetD row "Fire" ""))
        (rgetD row "Level 80" "")) := by
  refine ⟨?_, ?_, ?_, ?_, ?_⟩
  · intro hP hS
    have hne : rgetD row "Level 80" "" ≠ "" := by
      intro h0
      rw [h0] at hP
      exact absurd hP (by decide)
    have hnL : ¬(rgetD row "Level 80" "" = "" ∨ rgetD row "Level 80" "" = "Level 80") := by
      rintro (h0 | h0) <;> rw [h0] at hP <;> exact absurd hP (by decide)
    have hn : normalize_usage (rgetD row "Level 80" "") = none := by
      rw [normalize_usage_eq, if_neg hnL, if_pos (by rw [hP, hS]; rfl)]
    rw [process_entry_valid k row hv, hn]
    rw [if_pos ⟨hne, by rw [hP, hS]; rfl⟩]
  · intro hP hS
    have hnL : ¬(rgetD row "Level 80" "" = "" ∨ rgetD row "Level 80" "" = "Level 80") := by
      rintro (h0 | h0) <;> rw [h0] at hP <;> exact absurd hP (by decide)
    have hn : normalize_usage (rgetD row "Level 80" "") = some "Physical" := by
      rw [normalize_usage_eq, if_neg hnL, if_neg (by rw [hP, hS]; simp), if_pos hP]
    rw [process_entry_valid k row hv, hn]
    exact ⟨_, rfl, rfl⟩
  · intro hP hS
    have hnL : ¬(rgetD row "Level 80" "" = "" ∨ rgetD row "Level 80" "" = "Level 80") := by
      rintro (h0 | h0) <;> rw [h0] at hS <;> exact absurd hS (by decide)
    have hn : normalize_usage (rgetD row "Level 80" "") = some "Special" := by
      rw [normalize_usage_eq, if_neg hnL, if_neg (by rw [hP, hS]; simp),
        if_neg (by rw [hP]; simp), if_pos hS]
    rw [process_entry_valid k row hv, hn]
    exact ⟨_, rfl, rfl⟩
  · intro hP hS hU
    have hnL : ¬(rgetD row "Level 80" "" = "" ∨ rgetD row "Level 80" "" = "Level 80") := by
      rintro (h0 | h0) <;> rw [h0] at hU <;> exact absurd hU (by decide)
    have hn : normalize_usage (rgetD row "Level 80" "") = some "Support" := by
      rw [normalize_usage_eq, if_neg hnL, if_neg (by rw [hP]; simp),
        if_neg (by rw [hP]; simp), if_neg (by rw [hS]; simp), if_pos hU]
    rw [process_entry_valid k row hv, hn]
    exact ⟨_, rfl, rfl⟩
  · intro hP hS hU
    have hn : normalize_usage (rgetD row "Level 80" "") = none := by
      by_cases hL : rgetD row "Level 80" "" = "" ∨ rgetD row "Level 80" "" = "Level 80"
      · rw [normalize_usage_eq, if_pos hL]
      · rw [normalize_usage_eq, if_neg hL, if_neg (by rw [hP]; simp),
          if_neg (by rw [hP]; simp), if_neg (by rw [hS]; simp), if_neg (by rw [hU]; simp)]
    rw [process_entry_valid k row hv, hn]
    rw [if_neg (fun hc => by
      have h2 := hc.2
      rw [hP] at h2
      simp at h2)]

/-- Witness for C1 at a concrete row with both markers present. -/
theorem c1_role_priority_witness :
    process_entry "normal" [(("Fire" : String), ("Snorlax" : String)),
        ("Level 80", "Physical/Special mix")]
      = RowResult.skippedAmbiguousUsage "Physical/Special mix" "Snorlax" :=
  (c1_role_priority "normal"
      [("Fire", "Snorlax"), ("Level 80", "Physical/Special mix")]
      (by decide)).1 (by decide) (by decide)

/-- Membership test against a singleton list. -/
theorem contains_singleton (a t : String) : ([a].contains t) = (t == a) := by
  cases h : t == a <;> simp [List.contains, List.elem, h]

/-- The canonical type-name list has no duplicates. -/
theorem type_names_nodup : type_names.Nodup := by decide

/-- No canonical type name starts or ends with whitespace. -/
theorem type_names_edges : ∀ t ∈ type_names, no_ws_edges (pyLower t) = true := by decide

/-- The collect loop of `extract_types`: over a duplicate-free list it
appends exactly the elements satisfying the test, in list order. -/
theorem foldl_collect (q : String → Bool) (l : List String) :
    ∀ acc : List String, l.Nodup → (∀ t ∈ l, t ∉ acc) →
    l.foldl (fun types type_name =>
        if q type_name && !(types.contains type_name) then types ++ [type_name] else types) acc
      = acc ++ l.filter q := by
  induction l with
  | nil =>
    intro acc _ _
    simp
  | cons a t ih =>
    intro acc hnd hdis
    rw [List.foldl_cons, List.filter_cons]
    have ha : acc.contains a = false := by simpa using hdis a (List.mem_cons_self a t)
    by_cases hq : q a = true
    · rw [if_pos (show (q a && !acc.contains a) = true by rw [hq, ha]; rfl), hq]
      rw [ih (acc ++ [a]) hnd.of_cons ?_]
      · rw [List.append_assoc, List.singleton_append, if_pos rfl]
      · intro x hx
        rw [List.mem_append, List.mem_singleton]
        rintro (hxa | hxa)
        · exact hdis x (List.mem_cons_of_mem a hx) hxa
        · exact (List.nodup_cons.mp hnd).1 (hxa ▸ hx)
    · have hq0 : q a = false := by
        cases hqa : q a
        · rfl
        · exact absurd hqa hq
      rw [if_neg (show ¬((q a && !acc.contains a) = true) by rw [hq0]; simp), hq0]
      rw [ih acc hnd.of_cons (fun x hx => hdis x (List.mem_cons_of_mem a hx))]
      simp

/-- `extract_types` returns exactly the canonical type names occurring
(case-insensitively) in the secondary-usage text, in the canonical
list's order. -/
theorem extract_types_eq_filter (tf su : String) :
    extract_types tf su
      = type_names.filter (fun t => pyIn (pyLower t) (pyLower su)) := by
  unfold extract_types
  by_cases h : su ≠ "" ∧ pyStrip su ≠ ""
  · rw [if_pos h]
    rw [foldl_collect _ type_names [] type_names_nodup (by simp)]
    rw [List.nil_append]
    exact List.filter_congr
      (fun t ht => pyIn_pyLower_pyStrip (pyLower t) su (type_names_edges t ht))
  · rw [if_neg h]
    have hsu : pyStrip su = "" := by
      rcases not_and_or.mp h with h1 | h1
      · rw [not_not] at h1
        rw [h1]
        rfl
      · rwa [not_not] at h1
    symm
    rw [List.filter_eq_nil_iff]
    intro t ht
    rw [← pyIn_pyLower_pyStrip (pyLower t) su (type_names_edges t ht), hsu]
    have hemp : ∀ t ∈ type_names, pyIn (pyLower t) (pyLower "") = false := by decide
    simp [hemp t ht]

/-- A row failing name validation is skipped as an invalid name. -/
theorem process_entry_invalid (k : String) (row : RawRow)
    (hv : is_valid_pokemon_name (pyStrip (rgetD row "Fire" "")) = false) :
    process_entry k row = RowResult.skippedInvalidName (pyStrip (rgetD row "Fire" "")) := by
  simp only [process_entry, hv]
  rfl

/-- C3: secondary types are exactly the canonical type names occurring
case-insensitively in the secondary-usage text, and a converted
entry's type list is the primary type followed by the matched names
distinct from it, each once, in the canonical list's fixed iteration
order (not the text's order). -/
theorem c3_types (k : String) (row : RawRow) (e : PokemonEntry)
    (h : process_entry k row = RowResult.converted e) :
    extract_types (rgetD row "Fire" "") (rgetD row "Secondary Usage" "")
      = type_names.filter
          (fun t => pyIn (pyLower t) (pyLower (rgetD row "Secondary Usage" ""))) ∧
    e.types
      = (if pyCapitalize k = "Utility" then "Support" else pyCapitalize k) ::
          type_names.filter
            (fun t => pyIn (pyLower t) (pyLower (rgetD row "Secondary Usage" "")) &&
              !(t == (if pyCapitalize k = "Utility" then "Support" else pyCapitalize k))) := by
  refine ⟨extract_types_eq_filter _ _, ?_⟩
  by_cases hv : is_valid_pokemon_name (pyStrip (rgetD row "Fire" "")) = true
  · rw [process_entry_valid k row hv] at h
    cases hn : normalize_usage (rgetD row "Level 80" "") with
    | none =>
      rw [hn] at h
      split at h
      next => split at h <;> simp at h
      next heq => exact Option.noConfusion heq
    | some usage =>
      rw [hn] at h
      injection h with h
      have ht : (if pyCapitalize k = "Utility" then "Support" else pyCapitalize k) ::
          (extract_types (rgetD row "Fire" "") (rgetD row "Secondary Usage" "")).filter
            (fun t => !([if pyCapitalize k = "Utility" then "Support"
              else pyCapitalize k].contains t))
          = e.types := congrArg PokemonEntry.types h
      rw [← ht, extract_types_eq_filter, List.filter_filter]
      congr 1
      refine List.filter_congr fun t _ => ?_
      rw [contains_singleton, Bool.and_comm]
  · simp only [Bool.not_eq_true] at hv
    rw [process_entry_invalid k row hv] at h
    simp at h

/-- Witness for C3 at the concrete Charizard row. -/
theorem c3_types_witness :
    extract_types (rgetD c5_row "Fire" "") (rgetD c5_row "Secondary Usage" "")
      = type_names.filter
          (fun t => pyIn (pyLower t) (pyLower (rgetD c5_row "Secondary Usage" ""))) ∧
    ({ name := "Charizard", usage := "Special", types := ["Fire", "Dragon"],
       completed := false, ability := some "Blaze",
       moves := some "Flare Blitz, Dragon Claw", notes := none } : PokemonEntry).types
      = (if pyCapitalize "fire" = "Utility" then "Support" else pyCapitalize "fire") ::
          type_names.filter
            (fun t => pyIn (pyLower t) (pyLower (rgetD c5_row "Secondary Usage" "")) &&
              !(t == (if pyCapitalize "fire" = "Utility" then "Support"
                      else pyCapitalize "fire"))) :=
  c3_types "fire" c5_row _ rfl

/-- The rejection conditions of C2 as amended: the pipeline strips the
name field before validating (transform_checklist.py lines 115 and
70), so the uppercase-first-character test — and the emptiness test —
apply to the trimmed name.  For the raw field the claim is false: a
name field with leading whitespace before an uppercase letter, such as
`" Charizard"`, is converted (see the C2 counterexample below).  The
marker-substring test is unaffected by trimming. -/
def name_rejected (name : String) : Prop :=
  pyStrip name = "" ∨
  (∃ pat ∈ invalid_patterns, pyIn pat (pyLower (pyStrip name)) = true) ∨
  (∀ c, (pyStrip name).data.head? = some c → c.isUpper = false)

/-- A name meeting any rejection condition fails `is_valid_pokemon_name`. -/
theorem is_valid_eq_false_of_rejected (name : String) (h : name_rejected name) :
    is_valid_pokemon_name name = false := by
  unfold is_valid_pokemon_name
  by_cases h0 : name = "" ∨ pyStrip name = ""
  · rw [if_pos h0]
  · rw [if_neg h0]
    rcases h with h | ⟨pat, hmem, hpat⟩ | h
    · exact absurd (Or.inr h) h0
    · rw [if_pos (List.any_eq_true.mpr ⟨pat, hmem, hpat⟩)]
    · by_cases hp : (invalid_patterns.any fun pat => pyIn pat (pyLower (pyStrip name))) = true
      · rw [if_pos hp]
      · rw [if_neg hp]
        cases hd : (pyStrip name).data with
        | nil => rfl
        | cons c rest =>
          exact h c (by rw [hd]; rfl)

/-- Rejection is invariant under stripping (stripping is idempotent). -/
theorem name_rejected_strip (name : String) (h : name_rejected name) :
    name_rejected (pyStrip name) := by
  unfold name_rejected at *
  rw [pyStrip_idem]
  exact h

/-- Every converted entry carries its row's stripped name, which passed
validation. -/
theorem process_entry_converted_name (k : String) (row : RawRow) (e : PokemonEntry)
    (h : process_entry k row = RowResult.converted e) :
    e.name = pyStrip (rgetD row "Fire" "") ∧ is_valid_pokemon_name e.name = true := by
  by_cases hv : is_valid_pokemon_name (pyStrip (rgetD row "Fire" "")) = true
  · rw [process_entry_valid k row hv] at h
    cases hn : normalize_usage (rgetD row "Level 80" "") with
    | none =>
      rw [hn] at h
      split at h
      next => split at h <;> simp at h
      next heq => exact Option.noConfusion heq
    | some usage =>
      rw [hn] at h
      injection h with h
      have hname : pyStrip (rgetD row "Fire" "") = e.name := congrArg PokemonEntry.name h
      refine ⟨hname.symm, ?_⟩
      rw [← hname]
      exact hv
  · simp only [Bool.not_eq_true] at hv
    rw [process_entry_invalid k row hv] at h
    simp at h

/-- An entry in the state after one step came from the prior state or
from this row's conversion. -/
theorem mem_step (k : String) (st : TState) (row : RawRow) (e : PokemonEntry)
    (hm : e ∈ (step k st row).pokemon_list) :
    e ∈ st.pokemon_list ∨ process_entry k row = RowResult.converted e := by
  cases hp : process_entry k row with
  | skippedInvalidName nm =>
    simp only [step, hp] at hm
    exact Or.inl hm
  | skippedAmbiguousUsage uf nm =>
    simp only [step, hp] at hm
    exact Or.inl hm
  | skippedNoUsage nm uf =>
    simp only [step, hp] at hm
    exact Or.inl hm
  | converted e' =>
    simp only [step, hp, List.mem_append, List.mem_singleton] at hm
    rcases hm with hm | hm
    · exact Or.inl hm
    · subst hm
      exact Or.inr rfl

/-- An entry after a category's rows came from the prior state or from
one of those rows. -/
theorem mem_process_rows (k : String) (rows : List RawRow) (st : TState) (e : PokemonEntry)
    (hm : e ∈ (process_rows k st rows).pokemon_list) :
    e ∈ st.pokemon_list ∨ ∃ row ∈ rows, process_entry k row = RowResult.converted e := by
  induction rows generalizing st with
  | nil => exact Or.inl hm
  | cons r rs ih =>
    rcases ih (step k st r) hm with hm2 | ⟨row, hrow, hp⟩
    · rcases mem_step k st r e hm2 with hm3 | hp
      · exact Or.inl hm3
      · exact Or.inr ⟨r, List.mem_cons_self r rs, hp⟩
    · exact Or.inr ⟨row, List.mem_cons_of_mem r hrow, hp⟩

/-- An entry after the whole fold came from the initial state or from
some row of some category. -/
theorem mem_transform_fold (data : SourceData) (st : TState) (e : PokemonEntry)
    (hm : e ∈ (data.foldl (fun st kv => process_rows kv.1 st kv.2) st).pokemon_list) :
    e ∈ st.pokemon_list ∨
      ∃ kv ∈ data, ∃ row ∈ kv.2, process_entry kv.1 row = RowResult.converted e := by
  induction data generalizing st with
  | nil => exact Or.inl hm
  | cons kv rest ih =>
    rcases ih (process_rows kv.1 st kv.2) hm with hm2 | ⟨kv', hkv', row, hrow, hp⟩
    · rcases mem_process_rows kv.1 kv.2 st e hm2 with hm3 | ⟨row, hrow, hp⟩
      · exact Or.inl hm3
      · exact Or.inr ⟨kv, List.mem_cons_self kv rest, row, hrow, hp⟩
    · exact Or.inr ⟨kv', List.mem_cons_of_mem kv hkv', row, hrow, hp⟩

/-- Every entry of the output document is the conversion of some source
row. -/
theorem mem_transform_checklist (old_data : SourceData) (now : String) (e : PokemonEntry)
    (hm : e ∈ (transform_checklist old_data now).pokemon) :
    ∃ kv ∈ old_data, ∃ row ∈ kv.2, process_entry kv.1 row = RowResult.converted e := by
  rcases mem_transform_fold old_data init_state e hm with hm2 | hgood
  · exact absurd hm2 (List.not_mem_nil e)
  · exact hgood

/-- C2 as amended: a row whose name field (after trimming surrounding
whitespace) is empty, contains one of the marker substrings
(case-insensitively), or does not start with an uppercase letter,
fails validation, is skipped as `InvalidName`, and no entry with that
name appears in the output document.  The claim as frozen — with the
first-character test on the raw, untrimmed field — is refuted by
`c2_raw_first_char_counterexample`. -/
theorem c2_invalid_names_rejected (name : String) (h : name_rejected name) :
    is_valid_pokemon_name name = false ∧
    (∀ (k : String) (row : RawRow), rgetD row "Fire" "" = name →
      process_entry k row = RowResult.skippedInvalidName (pyStrip name)) ∧
    (∀ (old_data : SourceData) (now : String) (e : PokemonEntry),
      e ∈ (transform_checklist old_data now).pokemon → e.name ≠ pyStrip name) := by
  refine ⟨is_valid_eq_false_of_rejected name h, ?_, ?_⟩
  · intro k row hr
    have hv : is_valid_pokemon_name (pyStrip (rgetD row "Fire" "")) = false := by
      rw [hr]
      exact is_valid_eq_false_of_rejected _ (name_rejected_strip _ h)
    rw [process_entry_invalid k row hv, hr]
  · intro old_data now e hme hne
    obtain ⟨kv, _, row, _, hp⟩ := mem_transform_checklist old_data now e hme
    obtain ⟨_, hval⟩ := process_entry_converted_name _ _ _ hp
    rw [hne, is_valid_eq_false_of_rejected _ (name_rejected_strip _ h)] at hval
    exact Bool.false_ne_true hval

/-- Witness for C2 at the concrete rejected name `Level 80`. -/
theorem c2_invalid_names_rejected_witness :
    process_entry "fire" [(("Fire" : String), ("Level 80" : String))]
      = RowResult.skippedInvalidName (pyStrip "Level 80") :=
  (c2_invalid_names_rejected "Level 80"
      (Or.inr (Or.inl ⟨"level 80", by decide, by decide⟩))).2.1
    "fire" [("Fire", "Level 80")] rfl

/-- Counterexample to C2 as frozen: the raw name field `" Charizard"`
has first character `' '`, which is not an uppercase letter, so the
claim says the row is skipped with an `InvalidName` issue and absent
from the output; but the code strips the field before validating, so
the row is converted and its entry appears in the output document. -/
theorem c2_raw_first_char_counterexample :
    (" Charizard" : String).data.head? = some ' ' ∧
    Char.isUpper ' ' = false ∧
    process_entry "fire"
        [(("Fire" : String), (" Charizard" : String)), ("Level 80", "Physical")]
      = RowResult.converted
          { name := "Charizard", usage := "Physical", types := ["Fire"],
            completed := false, ability := none, moves := none, notes := none } ∧
    ({ name := "Charizard", usage := "Physical", types := ["Fire"], completed := false,
       ability := none, moves := none, notes := none } : PokemonEntry)
      ∈ (transform_checklist
          [("fire", [[(("Fire" : String), (" Charizard" : String)),
            ("Level 80", "Physical")]])] "T").pokemon :=
  ⟨rfl, rfl, rfl, by decide⟩

/-- Whether some canonical type name occurs in a text is unaffected by
stripping the text. -/
theorem any_type_names_strip (s : String) :
    (type_names.any fun t => pyIn (pyLower t) (pyLower (pyStrip s)))
      = (type_names.any fun t => pyIn (pyLower t) (pyLower s)) := by
  rw [Bool.eq_iff_iff, List.any_eq_true, List.any_eq_true]
  constructor
  · rintro ⟨t, ht, hp⟩
    exact ⟨t, ht, by rwa [pyIn_pyLower_pyStrip _ _ (type_names_edges t ht)] at hp⟩
  · rintro ⟨t, ht, hp⟩
    exact ⟨t, ht, by rwa [pyIn_pyLower_pyStrip _ _ (type_names_edges t ht)]⟩

/-- The notes field as C4 states it: the concatenation, joined by a
single space and trimmed, of (a) the (trimmed) secondary-usage text if
and only if that text contains none of the 17 canonical type names
(case-insensitive substring), and (b) the trimmed choices field unless
its uppercased value is exactly `""`, `"NEEDED"` or `"PICK 5"`. -/
def claimed_notes (secondary_usage_field choices_field : String) : String :=
  let part1 :=
    if (type_names.any fun t => pyIn (pyLower t) (pyLower secondary_usage_field)) = true
    then ""
    else pyStrip secondary_usage_field
  let part2 :=
    if (["", "NEEDED", "PICK 5"].contains (pyUpper (pyStrip choices_field))) = true
    then ""
    else pyStrip choices_field
  pyStrip (part1 ++ " " ++ part2)

/-- The code's note computation agrees with the claimed formula on all
inputs. -/
theorem compute_notes_eq_claimed (su ch : String) :
    compute_notes su ch = claimed_notes su ch := by
  simp only [compute_notes, claimed_notes]
  have hnotes : (if pyStrip su ≠ "" ∧
        ¬ (type_names.any fun t => pyIn (pyLower t) (pyLower (pyStrip su))) = true
      then pyStrip su else "")
      = (if (type_names.any fun t => pyIn (pyLower t) (pyLower su)) = true
         then "" else pyStrip su) := by
    rw [any_type_names_strip su]
    by_cases hA : (type_names.any fun t => pyIn (pyLower t) (pyLower su)) = true
    · rw [if_pos hA,
        if_neg (fun hand : pyStrip su ≠ "" ∧
            ¬ (type_names.any fun t => pyIn (pyLower t) (pyLower su)) = true => hand.2 hA)]
    · rw [if_neg hA]
      by_cases hs : pyStrip su = ""
      · rw [if_neg (fun hand : pyStrip su ≠ "" ∧
            ¬ (type_names.any fun t => pyIn (pyLower t) (pyLower su)) = true => hand.1 hs), hs]
      · rw [if_pos ⟨hs, hA⟩]
  rw [hnotes]
  by_cases hC : (["", "NEEDED", "PICK 5"].contains (pyUpper (pyStrip ch))) = true
  · rw [if_neg (fun hand : pyStrip ch ≠ "" ∧
        ¬ (["", "NEEDED", "PICK 5"].contains (pyUpper (pyStrip ch))) = true => hand.2 hC),
      if_pos hC, String.append_empty]
    by_cases hA : (type_names.any fun t => pyIn (pyLower t) (pyLower su)) = true
    · rw [if_pos hA]
      rfl
    · rw [if_neg hA, pyStrip_append_space]
  · have hch : pyStrip ch ≠ "" := fun h0 => hC (by rw [h0]; decide)
    rw [if_pos ⟨hch, hC⟩, if_neg hC]

/-- C4: a converted row's notes equal the trimmed single-space-joined
concatenation of the secondary-usage text (iff it names no canonical
type) and the trimmed choices field (unless uppercased it is exactly
`""`, `"NEEDED"` or `"PICK 5"`); when that result is empty the notes
field is absent from the entry. -/
theorem c4_notes (su ch : String) :
    compute_notes su ch = claimed_notes su ch ∧
    (∀ (k : String) (row : RawRow) (e : PokemonEntry),
      process_entry k row = RowResult.converted e →
      e.notes = (if claimed_notes (rgetD row "Secondary Usage" "") (rgetD row "Choices" "") = ""
        then none
        else some (claimed_notes (rgetD row "Secondary Usage" "") (rgetD row "Choices" "")))) := by
  refine ⟨compute_notes_eq_claimed su ch, ?_⟩
  intro k row e h
  by_cases hv : is_valid_pokemon_name (pyStrip (rgetD row "Fire" "")) = true
  · rw [process_entry_valid k row hv] at h
    cases hn : normalize_usage (rgetD row "Level 80" "") with
    | none =>
      rw [hn] at h
      split at h
      next => split at h <;> simp at h
      next heq => exact Option.noConfusion heq
    | some usage =>
      rw [hn] at h
      injection h with h
      have hnotes :
          (if compute_notes (rgetD row "Secondary Usage" "") (rgetD row "Choices" "") ≠ ""
           then some (compute_notes (rgetD row "Secondary Usage" "") (rgetD row "Choices" ""))
           else none) = e.notes := congrArg PokemonEntry.notes h
      rw [← hnotes, compute_notes_eq_claimed]
      by_cases hz : claimed_notes (rgetD row "Secondary Usage" "") (rgetD row "Choices" "") = ""
      · rw [if_neg (fun hx => hx hz), if_pos hz]
      · rw [if_pos hz, if_neg hz]
  · simp only [Bool.not_eq_true] at hv
    rw [process_entry_invalid k row hv] at h
    simp at h

/-- Witness for C4 at the concrete Charizard row (empty notes, hence
an absent field). -/
theorem c4_notes_witness :
    ({ name := "Charizard", usage := "Special", types := ["Fire", "Dragon"],
       completed := false, ability := some "Blaze",
       moves := some "Flare Blitz, Dragon Claw", notes := none } : PokemonEntry).notes
      = (if claimed_notes (rgetD c5_row "Secondary Usage" "") (rgetD c5_row "Choices" "") = ""
         then none
         else some (claimed_notes (rgetD c5_row "Secondary Usage" "")
            (rgetD c5_row "Choices" ""))) :=
  (c4_notes "" "").2 "fire" c5_row _ rfl
